import Mathlib

/-!
# pdreporter: the pagination loop and the report formatter of `opsreport.go`

A shallow embedding of `src/opsreport.go`.

* Go `int` is a 64-bit signed integer; it is embedded as `Int`, and the two
  additions of the loop (`respStruct.Offset + len(...)`, `callcount++`) wrap
  through `wrap64`.
* Go `interface{}` values decoded by `encoding/json` are embedded as `Dyn`.
* `loopBody` and `runLoop` are the loop on values: a page is the decoded
  content of `respStruct` after a call of `callApi`, and the map holds each
  incident as it was when it was merged. They serve for what does not depend
  on the memory of slices: the requests, the offsets, termination and the
  sizes of the groups.
* `memLoopBody` and `memRunLoop` are the same loop with slice headers and
  backing arrays: `respStruct` is one variable that every call decodes into,
  and a stored incident shares the backing arrays of its slices with the
  element it was copied from. `memRunLoop_sim` relates the two loops.
* `fmt` and `time` are libraries; what they print for a `time.Time` and for a
  non-string `interface{}` under the verb `%s` is taken as a parameter (`Fmt`).
* The remote server is a parameter `api`: the decoded response to the n-th
  call (counted from 1) made at a given offset.
* The `for` loop of `main` may run for ever, so it is run with fuel.
-/

namespace PdReporter

/-! ## Data model -/

/-- A Go `interface{}` value as `encoding/json` decodes it. -/
inductive Dyn where
  | nil
  | bool (b : Bool)
  | float64 (bits : Nat)
  | string (s : String)
  | slice (xs : List Dyn)
  | map (kvs : List (String × Dyn))

instance : Inhabited Dyn := ⟨Dyn.nil⟩

/-- A `time.Time` value; its zero value is the zero instant. -/
structure Time where
  sec : Int := 0
  nsec : Nat := 0
  zoneOffset : Int := 0
deriving DecidableEq, Inhabited

/-- The anonymous struct of `Incident.Service`. -/
structure Service where
  ID : String := ""
  Name : String := ""
  HTMLURL : String := ""
  DeletedAt : Dyn := Dyn.nil
  Description : String := ""

/-- The anonymous struct of `Incident.EscalationPolicy`. -/
structure EscalationPolicy where
  ID : String := ""
  Name : String := ""
  DeletedAt : Dyn := Dyn.nil

/-- The anonymous struct of `Incident.TriggerSummaryData`. -/
structure TriggerSummaryData where
  Description : String := ""

/-- The anonymous struct of `Acknowledgers[i].Object`. -/
structure AckObject where
  ID : String := ""
  Name : String := ""
  Email : String := ""
  HTMLURL : String := ""
  Type_ : String := ""

/-- The anonymous element struct of `Incident.Acknowledgers`. -/
structure Acknowledger where
  At : Time := {}
  Object : AckObject := {}

/-- The struct `Incident`; the defaults are Go zero values. -/
structure Incident where
  ID : String := ""
  IncidentNumber : Int := 0
  CreatedOn : Time := {}
  Status : String := ""
  PendingActions : List Dyn := []
  HTMLURL : String := ""
  IncidentKey : String := ""
  Service : Service := {}
  EscalationPolicy : EscalationPolicy := {}
  AssignedToUser : Dyn := Dyn.nil
  TriggerSummaryData : TriggerSummaryData := {}
  TriggerDetailsHTMLURL : String := ""
  TriggerType : String := ""
  LastStatusChangeOn : Time := {}
  LastStatusChangeBy : Dyn := Dyn.nil
  NumberOfEscalations : Int := 0
  ResolvedByUser : Dyn := Dyn.nil
  AssignedTo : List Dyn := []
  Urgency : String := ""
  Acknowledgers : List Acknowledger := []

/-- The struct `IncidentsResponse`. -/
structure IncidentsResponse where
  Incidents : List Incident := []
  Limit : Int := 0
  Offset : Int := 0
  Total : Int := 0

/-! ## Library behaviour taken as a parameter -/

/-- What the `fmt` and `time` libraries print: `timeString` is
`(time.Time).String`, used by `%s` on a `time.Time`; `dynS` is what `%s`
prints for an `interface{}` operand that is neither nil nor a string. -/
structure Fmt where
  timeString : Time → String
  dynS : Dyn → String

/-- The verb `%s` applied to an `interface{}` operand. -/
def sprintS (f : Fmt) : Dyn → String
  | Dyn.string s => s
  | Dyn.nil => "%!s(<nil>)"
  | d => f.dynS d

/-- The verb `%d` applied to an `int`. -/
def sprintD (n : Int) : String := toString n

/-- Run-time failures of the program. -/
inductive Failure where
  | indexOutOfRange
deriving DecidableEq

/-! ## writeIncident -/

/-- Test `resolution == nil` on an `interface{}`. -/
def Dyn.isNil : Dyn → Bool
  | Dyn.nil => true
  | _ => false

/-- The value of the local variable `resolution` of `writeIncident` when the
final `Printf` is reached (lines 68 to 83), or the failure of the index
expression `incident.Acknowledgers[0]`. -/
def resolution (f : Fmt) (incident : Incident) : Except Failure Dyn :=
  let status := incident.Status
  let resolution := incident.ResolvedByUser
  if status = "resolved" then
    if resolution.isNil then
      Except.ok (Dyn.string "API")
    else
      Except.ok (Dyn.string ("resolved by: " ++ sprintS f incident.ResolvedByUser))
  else if status = "acknowledged" then
    match incident.Acknowledgers with
    | [] => Except.error Failure.indexOutOfRange
    | a0 :: _ =>
      Except.ok (Dyn.string (a0.Object.Name ++ " - " ++ f.timeString a0.At))
  else if status = "triggered" then
    Except.ok (Dyn.string "open")
  else
    Except.ok resolution

/-- The function `writeIncident`: the line it prints on standard output, or
its failure. -/
def writeIncident (f : Fmt) (key : String) (incident : Incident) : Except Failure String :=
  match resolution f incident with
  | Except.error e => Except.error e
  | Except.ok resolution =>
    Except.ok (key ++ "," ++ sprintD incident.IncidentNumber ++ ","
      ++ incident.TriggerSummaryData.Description ++ ","
      ++ f.timeString incident.CreatedOn ++ ","
      ++ f.timeString incident.LastStatusChangeOn ++ ","
      ++ incident.Status ++ "," ++ sprintS f resolution ++ "\n")

/-! ## The pagination loop of main -/

/-- Two's-complement wrap of a Go `int` (64 bits). -/
def wrap64 (x : Int) : Int := (x + 2 ^ 63) % 2 ^ 64 - 2 ^ 63

/-- The map `groupedByServiceMap`, of type `map[string][]Incident`: an
association list with at most one entry for a key. -/
abbrev GroupMap := List (String × List Incident)

/-- The lookup `m[k]` with its `present` flag: `none` when `k` has no entry. -/
def mapGet : GroupMap → String → Option (List Incident)
  | [], _ => none
  | (k1, v) :: rest, k => if k1 = k then some v else mapGet rest k

/-- The assignment `m[k] = v`. -/
def mapSet : GroupMap → String → List Incident → GroupMap
  | [], k, v => [(k, v)]
  | (k1, v1) :: rest, k, v =>
    if k1 = k then (k, v) :: rest else (k1, v1) :: mapSet rest k v

/-- The body of `for _, incident := range respStruct.Incidents` (lines 143
to 148). `make([]Incident, 1)` is a slice holding one zero-valued incident. -/
def mergeIncident (m : GroupMap) (incident : Incident) : GroupMap :=
  let found := mapGet m incident.Service.Name
  let arr := found.getD []
  let present := found.isSome
  let m1 := if !present then mapSet m incident.Service.Name [({} : Incident)] else m
  let newslice := arr ++ [incident]
  mapSet m1 incident.Service.Name newslice

/-- The variables of `main` that the loop reads and writes, incidents being
values: `groupedByServiceMap` holds each incident as it was when it was
merged (`MemState` has the memory of slices). `requests` is a ghost log: the
offsets passed to `callApi` so far, oldest first. -/
structure LoopState where
  respStruct : IncidentsResponse := {}
  groupedByServiceMap : GroupMap := []
  offset : Int := 0
  callcount : Int := 1
  requests : List Int := []

/-- The state of `main` when the loop is entered (lines 129 to 132). -/
def init : LoopState := {}

/-- How one iteration of the loop ends: by `break`, or by reaching the end of
the body, after which the loop iterates again. -/
inductive Flow where
  | brk (s : LoopState)
  | next (s : LoopState)

/-- The state carried by a `Flow`. -/
def Flow.state : Flow → LoopState
  | Flow.brk s => s
  | Flow.next s => s

/-- One iteration of the `for` loop (lines 136 to 160), incidents being
values. `api n o` is the content of `respStruct` after `callApi` has been
called for the n-th time, with offset `o`. The same iteration with the memory
of slices is `memLoopBody`. -/
def loopBody (api : Nat → Int → IncidentsResponse) (s : LoopState) : Flow :=
  let respStruct := api (s.requests.length + 1) s.offset
  let s1 : LoopState := { s with respStruct := respStruct, requests := s.requests ++ [s.offset] }
  if respStruct.Incidents.length = 0 then
    Flow.brk s1
  else
    let s2 : LoopState :=
      { s1 with groupedByServiceMap := respStruct.Incidents.foldl mergeIncident s1.groupedByServiceMap }
    if respStruct.Total ≤ respStruct.Limit then
      Flow.brk s2
    else
      let offset :=
        if s.offset = 0 then respStruct.Limit
        else wrap64 (respStruct.Offset + (respStruct.Incidents.length : Int))
      Flow.next { s2 with offset := offset, callcount := wrap64 (s.callcount + 1) }

/-- The `for` loop, run for at most `fuel` iterations from state `s`:
`Flow.brk t` when the loop has left through a `break` in state `t`,
`Flow.next t` when `fuel` iterations have been completed without a `break`
and the next one would start in state `t`. -/
def runLoop (api : Nat → Int → IncidentsResponse) : Nat → LoopState → Flow
  | 0, s => Flow.next s
  | fuel + 1, s =>
    match loopBody api s with
    | Flow.brk t => Flow.brk t
    | Flow.next t => runLoop api fuel t

/-- The state in which call number `n + 1` starts, when the loop makes that
call: the loop has completed `n` iterations without a `break`. -/
def callState (api : Nat → Int → IncidentsResponse) (n : Nat) : Option LoopState :=
  match runLoop api n init with
  | Flow.next s => some s
  | Flow.brk _ => none

/-- The offset requested on call number `n` (counted from 1), when the loop
makes that call. -/
def offsetOfCall (api : Nat → Int → IncidentsResponse) : Nat → Option Int
  | 0 => none
  | n + 1 => (callState api n).map (fun s => s.offset)

/-- The response to call number `n` (counted from 1), when the loop makes
that call. -/
def responseOfCall (api : Nat → Int → IncidentsResponse) (n : Nat) : Option IncidentsResponse :=
  (offsetOfCall api n).map (api n)

/-- The number of incidents held across all groups of the map. -/
def heldCount (m : GroupMap) : Nat := (m.map (fun kv => kv.2.length)).sum

/-- The pages answered to the requests of a log, the first of which is call
number `n`. -/
def pagesFrom (api : Nat → Int → IncidentsResponse) : Nat → List Int → List (List Incident)
  | _, [] => []
  | n, o :: os => (api n o).Incidents :: pagesFrom api (n + 1) os

/-- The incidents of a list whose service name is `name`, in order. -/
def withService (name : String) (l : List Incident) : List Incident :=
  l.filter (fun i => decide (i.Service.Name = name))

/-- The group a map is expected to hold for a list of its incidents: no
group for the empty list. -/
def groupOf (l : List Incident) : Option (List Incident) :=
  match l with
  | [] => none
  | i :: rest => some (i :: rest)

/-! ## Servers used in the statements and examples -/

/-- A server answering consistently over a fixed list of incidents: the page
at offset `o` is `items[o .. o+limit)`, the reported offset echoes `o`, the
reported total is the length of the list. -/
def consistentServer (items : List Incident) (limit : Nat) : Nat → Int → IncidentsResponse :=
  fun _ o =>
    { Incidents := (items.drop o.toNat).take limit
      Limit := (limit : Int)
      Offset := o
      Total := (items.length : Int) }

/-- An incident of service `svc` with number `n` and status `st`. -/
def mkIncident (svc : String) (n : Int) (st : String) : Incident :=
  { IncidentNumber := n, Status := st, Service := { Name := svc } }

/-- A server that answers the first three calls with a page of one incident,
limit 1, total 3, and always reports offset 0; later calls get an empty page. -/
def nonEchoServer : Nat → Int → IncidentsResponse :=
  fun n _ =>
    if n ≤ 3 then
      { Incidents := [mkIncident "db" n "triggered"], Limit := 1, Offset := 0, Total := 3 }
    else
      { Incidents := [], Limit := 1, Offset := 0, Total := 3 }

/-- Four incidents of two services. -/
def fourIncidents : List Incident :=
  [mkIncident "db" 1 "triggered", mkIncident "web" 2 "resolved",
   mkIncident "db" 3 "resolved", mkIncident "web" 4 "triggered"]

/-- A library rendering used in examples: seconds of the instant, and a
fixed text for other dynamic values. -/
def exFmt : Fmt := { timeString := fun t => toString t.sec, dynS := fun _ => "?" }

/-- An acknowledged incident with two acknowledgers. -/
def ackIncident : Incident :=
  { Status := "acknowledged"
    ResolvedByUser := Dyn.string "carol"
    Acknowledgers :=
      [{ At := { sec := 7 }, Object := { Name := "bob" } },
       { At := { sec := 9 }, Object := { Name := "dave" } }] }

/-! ## The loop with the memory of slices

`main` allocates one `respStruct` (line 129) and `callApi` decodes every page
into it (line 108). `encoding/json` decodes a JSON array into the backing
array the slice already has, element by element, and allocates a larger array
only when the capacity is exceeded. Line 147 copies the struct `incident`,
hence the headers of its slices, not their backing arrays. The definitions
below are the loop again, with slice headers and backing arrays explicit. -/

/-- A Go slice header: the address of the backing array, `none` for a slice
of capacity 0, and the length. The capacity is the number of elements of the
backing array. -/
structure Slice where
  array : Option Nat := none
  len : Nat := 0
deriving DecidableEq

/-- The backing arrays of the slices of one element type, by address. Each
array has as many elements as its capacity; none is freed or moved. -/
abbrev Arrays (α : Type) := List (List α)

/-- The backing array of a slice: no element when the capacity is 0. -/
def backing {α : Type} (h : Arrays α) (s : Slice) : List α :=
  match s.array with
  | none => []
  | some p => h.getD p []

/-- The elements of a slice. -/
def readSlice {α : Type} (h : Arrays α) (s : Slice) : List α :=
  (backing h s).take s.len

/-- Writing elements, one after the other from index 0, into an array `old`:
the array after the writes, and the elements for which the array had no
room. -/
def overwrite {α : Type} : List α → List α → List α × List α
  | [], old => (old, [])
  | x :: xs, old =>
    match old with
    | [] => ([], x :: xs)
    | _ :: os => (x :: (overwrite xs os).1, (overwrite xs os).2)

/-- The effect of `json.Unmarshal` on a slice field with header `s`, when
the content of the field after the call is `a`. An empty content leaves a
header of capacity 0 (nil, or the fresh empty slice the library makes). A
content that is not empty is written, element after element, into the array
of `s` as far as its capacity goes; when the capacity is exceeded the library
moves to a new array, of capacity `growCap c a.length` for the old capacity
`c` (it depends on the version of the library) or the length needed if that
is more, whose other elements are `zero`. -/
def decodeSlice {α : Type} (zero : α) (growCap : Nat → Nat → Nat)
    (h : Arrays α) (s : Slice) (a : List α) : Arrays α × Slice :=
  match a with
  | [] => (h, {})
  | x :: xs =>
    let old := backing h s
    let w := overwrite (x :: xs) old
    let h1 :=
      match s.array with
      | none => h
      | some p => h.set p w.1
    match w.2 with
    | [] => (h1, { s with len := (x :: xs).length })
    | _ :: _ =>
      let spare := growCap old.length (x :: xs).length - (x :: xs).length
      (h1 ++ [(x :: xs) ++ List.replicate spare zero],
        { array := some h1.length, len := (x :: xs).length })

/-- The capacities the library gives the slices it has to enlarge, for the
two element types: `dyn c n` and `ack c n` are the capacity of the new array
when a slice of capacity `c` has to hold `n` elements. They depend on the
version of the library; nothing below depends on them. -/
structure Growth where
  dyn : Nat → Nat → Nat
  ack : Nat → Nat → Nat

/-- The memory of the program: the backing arrays of the `[]interface{}`
slices and of the `Acknowledgers` slices. -/
structure Mem where
  dyns : Arrays Dyn := []
  acks : Arrays Acknowledger := []

/-- An `Incident` as it lies in memory: `fields` holds the fields that are
not slices (its own three slice fields are kept empty), next to the headers
of the three slices. -/
structure Cell where
  fields : Incident := {}
  PendingActions : Slice := {}
  AssignedTo : Slice := {}
  Acknowledgers : Slice := {}

/-- The incident a cell stands for in a memory. -/
def Cell.read (m : Mem) (c : Cell) : Incident :=
  { c.fields with
    PendingActions := readSlice m.dyns c.PendingActions
    AssignedTo := readSlice m.dyns c.AssignedTo
    Acknowledgers := readSlice m.acks c.Acknowledgers }

/-- An incident with its three slice fields emptied: what a cell keeps in
`fields`. -/
def Incident.scalars (i : Incident) : Incident :=
  { i with PendingActions := [], AssignedTo := [], Acknowledgers := [] }

/-- The effect of `json.Unmarshal` on one element of `respStruct.Incidents`
lying in cell `c`, when the content of the element after the call is `i`. -/
def decodeCell (growCap : Growth) (m : Mem) (c : Cell) (i : Incident) : Mem × Cell :=
  let p := decodeSlice Dyn.nil growCap.dyn m.dyns c.PendingActions i.PendingActions
  let q := decodeSlice Dyn.nil growCap.dyn p.1 c.AssignedTo i.AssignedTo
  let r := decodeSlice ({} : Acknowledger) growCap.ack m.acks c.Acknowledgers i.Acknowledgers
  ({ dyns := q.1, acks := r.1 },
    { fields := i.scalars
      PendingActions := p.2
      AssignedTo := q.2
      Acknowledgers := r.2 })

/-- The effect of `json.Unmarshal` on the cells of `respStruct.Incidents`,
for a page that is not empty: the k-th incident of the page is decoded into
the k-th cell, a zero cell when the array had none; the cells after the page
are left as they are. -/
def decodeCells (growCap : Growth) : Mem → List Cell → List Incident → Mem × List Cell
  | m, cells, [] => (m, cells)
  | m, cells, i :: rest =>
    let d := decodeCell growCap m (cells.headD {}) i
    let e := decodeCells growCap d.1 cells.tail rest
    (e.1, d.2 :: e.2)

/-- The variable `respStruct` in memory: the cells of the backing array of
`Incidents`, the length of that slice, and the three integers. -/
structure RespMem where
  cells : List Cell := []
  len : Nat := 0
  Limit : Int := 0
  Offset : Int := 0
  Total : Int := 0

/-- The function `callApi` on the memory: `r` is the content of `respStruct`
after the call. An empty page leaves a slice without backing array. -/
def callApiMem (growCap : Growth) (m : Mem) (respStruct : RespMem)
    (r : IncidentsResponse) : Mem × RespMem :=
  if r.Incidents.length = 0 then
    (m, { cells := [], len := 0, Limit := r.Limit, Offset := r.Offset, Total := r.Total })
  else
    let d := decodeCells growCap m respStruct.cells r.Incidents
    (d.1, { cells := d.2, len := r.Incidents.length,
            Limit := r.Limit, Offset := r.Offset, Total := r.Total })

/-- The map `groupedByServiceMap` in memory. -/
abbrev CellMap := List (String × List Cell)

/-- The lookup `m[k]` on the map in memory. -/
def cellGet : CellMap → String → Option (List Cell)
  | [], _ => none
  | (k1, v) :: rest, k => if k1 = k then some v else cellGet rest k

/-- The assignment `m[k] = v` on the map in memory. -/
def cellSet : CellMap → String → List Cell → CellMap
  | [], k, v => [(k, v)]
  | (k1, v1) :: rest, k, v =>
    if k1 = k then (k, v) :: rest else (k1, v1) :: cellSet rest k v

/-- The body of `for _, incident := range respStruct.Incidents` (lines 143
to 148) in memory: `incident` is a copy of a cell, slice headers included. -/
def mergeCell (m : CellMap) (incident : Cell) : CellMap :=
  let found := cellGet m incident.fields.Service.Name
  let arr := found.getD []
  let present := found.isSome
  let m1 := if !present then cellSet m incident.fields.Service.Name [({} : Cell)] else m
  let newslice := arr ++ [incident]
  cellSet m1 incident.fields.Service.Name newslice

/-- The variables of `main` with the memory of slices. -/
structure MemState where
  mem : Mem := {}
  respStruct : RespMem := {}
  groupedByServiceMap : CellMap := []
  offset : Int := 0
  callcount : Int := 1
  requests : List Int := []

/-- The state of `main` when the loop is entered (lines 129 to 132). -/
def memInit : MemState := {}

/-- How one iteration of the loop in memory ends. -/
inductive MemFlow where
  | brk (s : MemState)
  | next (s : MemState)

/-- The state carried by a `MemFlow`. -/
def MemFlow.state : MemFlow → MemState
  | MemFlow.brk s => s
  | MemFlow.next s => s

/-- One iteration of the `for` loop (lines 136 to 160) with the memory of
slices. -/
def memLoopBody (growCap : Growth) (api : Nat → Int → IncidentsResponse)
    (s : MemState) : MemFlow :=
  let d := callApiMem growCap s.mem s.respStruct (api (s.requests.length + 1) s.offset)
  let respStruct := d.2
  let s1 : MemState :=
    { s with mem := d.1, respStruct := respStruct, requests := s.requests ++ [s.offset] }
  if respStruct.len = 0 then
    MemFlow.brk s1
  else
    let s2 : MemState :=
      { s1 with groupedByServiceMap :=
          (respStruct.cells.take respStruct.len).foldl mergeCell s1.groupedByServiceMap }
    if respStruct.Total ≤ respStruct.Limit then
      MemFlow.brk s2
    else
      let offset :=
        if s.offset = 0 then respStruct.Limit
        else wrap64 (respStruct.Offset + (respStruct.len : Int))
      MemFlow.next { s2 with offset := offset, callcount := wrap64 (s.callcount + 1) }

/-- The `for` loop with the memory of slices, run for at most `fuel`
iterations. -/
def memRunLoop (growCap : Growth) (api : Nat → Int → IncidentsResponse) :
    Nat → MemState → MemFlow
  | 0, s => MemFlow.next s
  | fuel + 1, s =>
    match memLoopBody growCap api s with
    | MemFlow.brk t => MemFlow.brk t
    | MemFlow.next t => memRunLoop growCap api fuel t

/-- The incidents of the group stored under a name, as `writeIncident`
receives them after the loop (lines 163 to 167). -/
def storedGroup (s : MemState) (name : String) : Option (List Incident) :=
  (cellGet s.groupedByServiceMap name).map (fun g => g.map (Cell.read s.mem))

/-- The groups of the map in memory, slice fields left out. -/
def cellShape (m : CellMap) : GroupMap :=
  m.map (fun kv => (kv.1, kv.2.map (fun c => c.fields)))

/-- The groups of a map of incident values, slice fields emptied. -/
def valueShape (m : GroupMap) : GroupMap :=
  m.map (fun kv => (kv.1, kv.2.map Incident.scalars))

/-- What a state of the loop in memory and a state of the loop on values have
in common when they agree on everything but the content of slices: the
integers, the log of requests, the length of the page, and the groups of the
map up to the slice fields of their incidents. -/
def Sim (ms : MemState) (s : LoopState) : Prop :=
  ms.offset = s.offset ∧ ms.callcount = s.callcount ∧ ms.requests = s.requests ∧
  ms.respStruct.Limit = s.respStruct.Limit ∧ ms.respStruct.Offset = s.respStruct.Offset ∧
  ms.respStruct.Total = s.respStruct.Total ∧
  ms.respStruct.len = s.respStruct.Incidents.length ∧
  cellShape ms.groupedByServiceMap = valueShape s.groupedByServiceMap

/-- Two runs of the loop that end the same way, in states that agree. -/
def SimFlow : MemFlow → Flow → Prop
  | MemFlow.brk mt, Flow.brk t => Sim mt t
  | MemFlow.next mt, Flow.next t => Sim mt t
  | _, _ => False

/-- An acknowledged incident of service "db" with number `n` and one
acknowledger named `who`. -/
def ackedBy (n : Int) (who : String) : Incident :=
  { IncidentNumber := n
    Status := "acknowledged"
    Service := { Name := "db" }
    Acknowledgers := [{ Object := { Name := who } }] }

/-- A server answering consistently, one incident a page, over incident 1
acknowledged by bob and incident 2 acknowledged by dave. -/
def bobDaveServer : Nat → Int → IncidentsResponse :=
  consistentServer [ackedBy 1 "bob", ackedBy 2 "dave"] 1

/-- The number and the names of the acknowledgers of each incident of a list. -/
def ackNames (l : List Incident) : List (Int × List String) :=
  l.map (fun i => (i.IncidentNumber, i.Acknowledgers.map (fun a => a.Object.Name)))

/-! ## Lemmas on the loop -/

theorem runLoop_succ_right (api : Nat → Int → IncidentsResponse) (n : Nat) (s : LoopState) :
    runLoop api (n + 1) s =
      match runLoop api n s with
      | Flow.brk t => Flow.brk t
      | Flow.next t => loopBody api t := by
  induction n generalizing s with
  | zero =>
    simp only [runLoop]
    cases loopBody api s <;> rfl
  | succ k ih =>
    rw [runLoop]
    cases hb : loopBody api s with
    | brk t => simp [runLoop, hb]
    | next t =>
      simp only []
      rw [ih t]
      conv_rhs => rw [runLoop, hb]

theorem runLoop_brk_mono (api : Nat → Int → IncidentsResponse) (n m : Nat) (s t : LoopState)
    (h : runLoop api n s = Flow.brk t) (hm : n ≤ m) : runLoop api m s = Flow.brk t := by
  induction m with
  | zero =>
    have : n = 0 := by omega
    subst this
    exact h
  | succ k ih =>
    by_cases hk : n ≤ k
    · rw [runLoop_succ_right, ih hk]
    · have : n = k + 1 := by omega
      subst this
      exact h

theorem loopBody_requests (api : Nat → Int → IncidentsResponse) (s : LoopState) :
    (loopBody api s).state.requests = s.requests ++ [s.offset] := by
  unfold loopBody
  simp only []
  split
  · rfl
  · split <;> rfl

theorem runLoop_next_requests_length (api : Nat → Int → IncidentsResponse) (n : Nat)
    (s t : LoopState) (h : runLoop api n s = Flow.next t) :
    t.requests.length = s.requests.length + n := by
  induction n generalizing t with
  | zero =>
    simp only [runLoop] at h
    cases h
    rfl
  | succ k ih =>
    rw [runLoop_succ_right] at h
    cases hk : runLoop api k s with
    | brk u => rw [hk] at h; cases h
    | next u =>
      rw [hk] at h
      simp only [] at h
      have h1 := loopBody_requests api u
      rw [h] at h1
      simp only [Flow.state] at h1
      rw [h1, List.length_append, ih u hk]
      simp
      omega

theorem callState_requests_length (api : Nat → Int → IncidentsResponse) (n : Nat)
    (s : LoopState) (h : callState api n = some s) : s.requests.length = n := by
  unfold callState at h
  cases hk : runLoop api n init with
  | brk u => rw [hk] at h; cases h
  | next u =>
    rw [hk] at h
    cases h
    have := runLoop_next_requests_length api n init _ hk
    simpa [init] using this

theorem callState_runLoop (api : Nat → Int → IncidentsResponse) (n : Nat)
    (s : LoopState) (h : callState api n = some s) : runLoop api n init = Flow.next s := by
  unfold callState at h
  cases hk : runLoop api n init with
  | brk u => rw [hk] at h; cases h
  | next u => rw [hk] at h; cases h; rfl

/-- The three ways through the body of the loop. -/
theorem loopBody_cases (api : Nat → Int → IncidentsResponse) (s : LoopState) :
    ((api (s.requests.length + 1) s.offset).Incidents = [] ∧
      loopBody api s = Flow.brk
        { s with respStruct := api (s.requests.length + 1) s.offset,
                 requests := s.requests ++ [s.offset] }) ∨
    ((api (s.requests.length + 1) s.offset).Incidents ≠ [] ∧
      (api (s.requests.length + 1) s.offset).Total ≤ (api (s.requests.length + 1) s.offset).Limit ∧
      loopBody api s = Flow.brk
        { s with respStruct := api (s.requests.length + 1) s.offset,
                 requests := s.requests ++ [s.offset],
                 groupedByServiceMap :=
                   (api (s.requests.length + 1) s.offset).Incidents.foldl mergeIncident
                     s.groupedByServiceMap }) ∨
    ((api (s.requests.length + 1) s.offset).Incidents ≠ [] ∧
      (api (s.requests.length + 1) s.offset).Limit < (api (s.requests.length + 1) s.offset).Total ∧
      loopBody api s = Flow.next
        { respStruct := api (s.requests.length + 1) s.offset,
          requests := s.requests ++ [s.offset],
          groupedByServiceMap :=
            (api (s.requests.length + 1) s.offset).Incidents.foldl mergeIncident
              s.groupedByServiceMap,
          offset :=
            if s.offset = 0 then (api (s.requests.length + 1) s.offset).Limit
            else wrap64 ((api (s.requests.length + 1) s.offset).Offset
              + ((api (s.requests.length + 1) s.offset).Incidents.length : Int)),
          callcount := wrap64 (s.callcount + 1) }) := by
  unfold loopBody
  simp only []
  by_cases h0 : (api (s.requests.length + 1) s.offset).Incidents = []
  · left
    simp [h0]
  · right
    have hlen : (api (s.requests.length + 1) s.offset).Incidents.length ≠ 0 := by
      simpa using h0
    by_cases ht : (api (s.requests.length + 1) s.offset).Total
        ≤ (api (s.requests.length + 1) s.offset).Limit
    · left
      simp [h0, ht]
    · right
      refine ⟨h0, by omega, ?_⟩
      simp [h0, ht]

theorem callState_succ (api : Nat → Int → IncidentsResponse) (n : Nat) (s : LoopState)
    (h : callState api n = some s) :
    runLoop api (n + 1) init = loopBody api s ∧ s.requests.length = n := by
  refine ⟨?_, callState_requests_length api n s h⟩
  rw [runLoop_succ_right, callState_runLoop api n s h]

theorem callState_succ_inv (api : Nat → Int → IncidentsResponse) (n : Nat) (t : LoopState)
    (h : callState api (n + 1) = some t) :
    ∃ s, callState api n = some s ∧ loopBody api s = Flow.next t := by
  have ht := callState_runLoop api (n + 1) t h
  rw [runLoop_succ_right] at ht
  cases hk : runLoop api n init with
  | brk u => rw [hk] at ht; cases ht
  | next u =>
    rw [hk] at ht
    exact ⟨u, by simp [callState, hk], ht⟩

/-! ## Lemmas on the map of groups -/

theorem mapGet_mapSet (m : GroupMap) (k k2 : String) (v : List Incident) :
    mapGet (mapSet m k v) k2 = if k = k2 then some v else mapGet m k2 := by
  induction m with
  | nil => simp [mapSet, mapGet]
  | cons kv rest ih =>
    obtain ⟨k1, v1⟩ := kv
    by_cases h1 : k1 = k
    · subst h1
      by_cases h2 : k1 = k2 <;> simp [mapSet, mapGet, h2]
    · by_cases h2 : k = k2
      · subst h2
        simp [mapSet, mapGet, h1, ih]
      · by_cases h3 : k1 = k2
        · subst h3
          simp [mapSet, mapGet, h1, h2]
        · simp [mapSet, mapGet, h1, h2, h3, ih]

theorem mapGet_mergeIncident (m : GroupMap) (incident : Incident) (k : String) :
    mapGet (mergeIncident m incident) k =
      if incident.Service.Name = k then some ((mapGet m k).getD [] ++ [incident])
      else mapGet m k := by
  unfold mergeIncident
  simp only []
  by_cases hk : incident.Service.Name = k
  · subst hk
    simp [mapGet_mapSet]
  · rw [mapGet_mapSet]
    simp only [hk, if_false]
    split
    · rw [mapGet_mapSet]
      simp [hk]
    · rfl

theorem withService_append_singleton (k : String) (l : List Incident) (i : Incident) :
    withService k (l ++ [i]) =
      if i.Service.Name = k then withService k l ++ [i] else withService k l := by
  unfold withService
  by_cases h : i.Service.Name = k <;> simp [List.filter_cons, h]

theorem groupOf_getD (l : List Incident) : (groupOf l).getD [] = l := by
  cases l <;> rfl

theorem groupOf_append_singleton (l : List Incident) (i : Incident) :
    groupOf (l ++ [i]) = some (l ++ [i]) := by
  cases l <;> rfl

theorem mapGet_foldl_mergeIncident (page l : List Incident) (m : GroupMap)
    (h : ∀ k, mapGet m k = groupOf (withService k l)) (k : String) :
    mapGet (page.foldl mergeIncident m) k = groupOf (withService k (l ++ page)) := by
  induction page generalizing m l with
  | nil => simpa using h k
  | cons i rest ih =>
    have hstep : ∀ k2, mapGet (mergeIncident m i) k2 = groupOf (withService k2 (l ++ [i])) := by
      intro k2
      rw [mapGet_mergeIncident, withService_append_singleton, h k2]
      by_cases hk : i.Service.Name = k2
      · simp only [hk, if_true, groupOf_getD, groupOf_append_singleton]
      · simp only [hk, if_false]
    have := ih (l ++ [i]) (mergeIncident m i) hstep
    simpa using this

theorem pagesFrom_append_singleton (api : Nat → Int → IncidentsResponse) (n : Nat)
    (log : List Int) (o : Int) :
    pagesFrom api n (log ++ [o]) = pagesFrom api n log ++ [(api (n + log.length) o).Incidents] := by
  induction log generalizing n with
  | nil => simp [pagesFrom]
  | cons a rest ih =>
    have hidx : n + 1 + rest.length = n + (rest.length + 1) := by omega
    have hrec := ih (n + 1)
    rw [hidx] at hrec
    simp only [List.cons_append, pagesFrom, List.length_cons]
    exact congrArg (List.cons (api n a).Incidents) hrec

/-- What the loop keeps true of the map: it is the result of merging, one
incident after the other, the pages answered to the requests of the log. -/
theorem loopBody_map (api : Nat → Int → IncidentsResponse) (s : LoopState)
    (h : s.groupedByServiceMap
      = (pagesFrom api 1 s.requests).flatten.foldl mergeIncident []) :
    (loopBody api s).state.groupedByServiceMap
      = (pagesFrom api 1 (loopBody api s).state.requests).flatten.foldl mergeIncident [] := by
  rw [loopBody_requests, pagesFrom_append_singleton, List.flatten_append, List.foldl_append, ← h]
  have hidx : 1 + s.requests.length = s.requests.length + 1 := by omega
  rw [hidx]
  rcases loopBody_cases api s with hb | hb | hb
  · rw [hb.2, hb.1]
    rfl
  · rw [hb.2.2]
    simp [Flow.state]
  · rw [hb.2.2]
    simp [Flow.state]

theorem runLoop_map (api : Nat → Int → IncidentsResponse) (fuel : Nat) (s : LoopState)
    (h : s.groupedByServiceMap
      = (pagesFrom api 1 s.requests).flatten.foldl mergeIncident []) :
    (runLoop api fuel s).state.groupedByServiceMap
      = (pagesFrom api 1 (runLoop api fuel s).state.requests).flatten.foldl mergeIncident [] := by
  induction fuel generalizing s with
  | zero => exact h
  | succ k ih =>
    have hb := loopBody_map api s h
    rw [runLoop]
    cases hc : loopBody api s with
    | brk t =>
      rw [hc] at hb
      exact hb
    | next t =>
      rw [hc] at hb
      exact ih t hb

theorem heldCount_mapSet (m : GroupMap) (k : String) (v : List Incident) :
    heldCount (mapSet m k v) + ((mapGet m k).getD []).length = heldCount m + v.length := by
  induction m with
  | nil => simp [mapSet, mapGet, heldCount]
  | cons kv rest ih =>
    obtain ⟨k1, v1⟩ := kv
    by_cases h1 : k1 = k
    · simp [mapSet, mapGet, heldCount, h1]
      omega
    · simp only [mapSet, mapGet, h1, if_false]
      simp only [heldCount, List.map_cons, List.sum_cons] at ih ⊢
      omega

theorem heldCount_mergeIncident (m : GroupMap) (incident : Incident) :
    heldCount (mergeIncident m incident) = heldCount m + 1 := by
  unfold mergeIncident
  simp only []
  cases hf : mapGet m incident.Service.Name with
  | none =>
    have h1 := heldCount_mapSet m incident.Service.Name [({} : Incident)]
    have h2 := heldCount_mapSet (mapSet m incident.Service.Name [({} : Incident)])
      incident.Service.Name ([] ++ [incident])
    rw [mapGet_mapSet] at h2
    simp [hf] at h1 h2 ⊢
    omega
  | some arr =>
    have h1 := heldCount_mapSet m incident.Service.Name (arr ++ [incident])
    simp [hf] at h1 ⊢
    omega

theorem heldCount_foldl_mergeIncident (page : List Incident) (m : GroupMap) :
    heldCount (page.foldl mergeIncident m) = heldCount m + page.length := by
  induction page generalizing m with
  | nil => simp
  | cons i rest ih =>
    simp only [List.foldl_cons, ih, heldCount_mergeIncident, List.length_cons]
    omega

/-! ## Lemmas on the consistent server -/

theorem wrap64_of_range (x : Int) (h0 : 0 ≤ x) (h1 : x < 2 ^ 63) : wrap64 x = x := by
  unfold wrap64
  have e63 : (2 : Int) ^ 63 = 9223372036854775808 := by norm_num
  have e64 : (2 : Int) ^ 64 = 18446744073709551616 := by norm_num
  rw [e63] at h1 ⊢
  rw [e64]
  omega

theorem runLoop_one (api : Nat → Int → IncidentsResponse) (s : LoopState) :
    runLoop api 1 s = loopBody api s := by
  rw [runLoop_succ_right]
  rfl

theorem runLoop_of_next (api : Nat → Int → IncidentsResponse) (fuel : Nat) (s t : LoopState)
    (h : loopBody api s = Flow.next t) : runLoop api (fuel + 1) s = runLoop api fuel t := by
  simp [runLoop, h]

theorem consistent_page_length (items : List Incident) (limit k : Nat) (o : Nat) :
    (consistentServer items limit k (o : Int)).Incidents.length
      = min limit (items.length - o) := by
  simp [consistentServer]

theorem loopBody_brk_fields (api : Nat → Int → IncidentsResponse) (s t : LoopState)
    (h : loopBody api s = Flow.brk t) :
    t.respStruct = api (s.requests.length + 1) s.offset ∧
    (((api (s.requests.length + 1) s.offset).Incidents = [] ∧
        t.groupedByServiceMap = s.groupedByServiceMap) ∨
      ((api (s.requests.length + 1) s.offset).Total
          ≤ (api (s.requests.length + 1) s.offset).Limit ∧
        t.groupedByServiceMap =
          (api (s.requests.length + 1) s.offset).Incidents.foldl mergeIncident
            s.groupedByServiceMap)) := by
  rcases loopBody_cases api s with hb | hb | hb
  · rw [hb.2] at h
    cases h
    exact ⟨rfl, Or.inl ⟨hb.1, rfl⟩⟩
  · rw [hb.2.2] at h
    cases h
    exact ⟨rfl, Or.inr ⟨hb.2.1, rfl⟩⟩
  · rw [hb.2.2] at h
    cases h

theorem loopBody_next_fields (api : Nat → Int → IncidentsResponse) (s t : LoopState)
    (h : loopBody api s = Flow.next t) :
    (api (s.requests.length + 1) s.offset).Incidents ≠ [] ∧
    t.groupedByServiceMap =
      (api (s.requests.length + 1) s.offset).Incidents.foldl mergeIncident
        s.groupedByServiceMap ∧
    t.offset =
      (if s.offset = 0 then (api (s.requests.length + 1) s.offset).Limit
       else wrap64 ((api (s.requests.length + 1) s.offset).Offset
          + ((api (s.requests.length + 1) s.offset).Incidents.length : Int))) := by
  rcases loopBody_cases api s with hb | hb | hb
  · rw [hb.2] at h
    cases h
  · rw [hb.2.2] at h
    cases h
  · rw [hb.2.2] at h
    cases h
    exact ⟨hb.1, rfl, rfl⟩

/-- From the second call on: the offset equals the number of incidents held,
and the loop ends with every incident of the list held. -/
theorem consistent_tail (items : List Incident) (limit : Nat) (hpos : 0 < limit)
    (hlen : (items.length : Int) < 2 ^ 63) (hbig : limit < items.length) :
    ∀ (d : Nat) (s : LoopState) (o : Nat), s.offset = (o : Int) → 0 < o →
      o ≤ items.length → items.length - o ≤ d → heldCount s.groupedByServiceMap = o →
      ∃ t, (∀ fuel, d + 1 ≤ fuel →
          runLoop (consistentServer items limit) fuel s = Flow.brk t) ∧
        heldCount t.groupedByServiceMap = items.length ∧
        t.respStruct.Total = (items.length : Int) := by
  intro d
  induction d with
  | zero =>
    intro s o hoff hopos hole hd hheld
    have hpl := consistent_page_length items limit (s.requests.length + 1) o
    rw [← hoff] at hpl
    cases hbody : loopBody (consistentServer items limit) s with
    | brk t =>
      obtain ⟨hr, hm⟩ := loopBody_brk_fields _ s t hbody
      refine ⟨t, ?_, ?_, ?_⟩
      · intro fuel hf
        exact runLoop_brk_mono _ 1 fuel s t ((runLoop_one _ s).trans hbody) hf
      · rcases hm with hm | hm
        · rw [hm.2, hheld]
          omega
        · have := hm.1
          simp only [consistentServer] at this
          omega
      · rw [hr]
        rfl
    | next t =>
      obtain ⟨hne, -, -⟩ := loopBody_next_fields _ s t hbody
      have : (consistentServer items limit (s.requests.length + 1) s.offset).Incidents.length
          ≠ 0 := by simpa using hne
      omega
  | succ d ih =>
    intro s o hoff hopos hole hd hheld
    have hpl := consistent_page_length items limit (s.requests.length + 1) o
    rw [← hoff] at hpl
    cases hbody : loopBody (consistentServer items limit) s with
    | brk t =>
      obtain ⟨hr, hm⟩ := loopBody_brk_fields _ s t hbody
      refine ⟨t, ?_, ?_, ?_⟩
      · intro fuel hf
        exact runLoop_brk_mono _ 1 fuel s t ((runLoop_one _ s).trans hbody) (by omega)
      · rcases hm with hm | hm
        · have hz := hm.1
          rw [hm.2, hheld]
          rw [hz] at hpl
          simp only [List.length_nil] at hpl
          omega
        · have := hm.1
          simp only [consistentServer] at this
          omega
      · rw [hr]
        rfl
    | next t =>
      obtain ⟨hne, hmap, hofs⟩ := loopBody_next_fields _ s t hbody
      have hpos2 :
          (consistentServer items limit (s.requests.length + 1) s.offset).Incidents.length
            ≠ 0 := by simpa using hne
      have hs0 : s.offset ≠ 0 := by omega
      have hoffs : (consistentServer items limit (s.requests.length + 1) s.offset).Offset
          = (o : Int) := hoff
      rw [if_neg hs0, hoffs, hpl, wrap64_of_range] at hofs
      · obtain ⟨u, hu1, hu2, hu3⟩ := ih t (o + min limit (items.length - o))
          (by rw [hofs]; push_cast; rfl) (by omega) (by omega) (by omega)
          (by rw [hmap, heldCount_foldl_mergeIncident, hheld, hpl])
        refine ⟨u, ?_, hu2, hu3⟩
        intro fuel hf
        obtain ⟨f, rfl⟩ : ∃ f, fuel = f + 1 := ⟨fuel - 1, by omega⟩
        rw [runLoop_of_next _ f s t hbody]
        exact hu1 f (by omega)
      · omega
      · have h1 : o + min limit (items.length - o) ≤ items.length := by omega
        have h2 : ((o : Int) + ((min limit (items.length - o) : Nat) : Int))
            ≤ (items.length : Int) := by exact_mod_cast h1
        omega

/-! ## The pagination loop -/

/-- C1: when the first response (call 1, offset 0) reports a total that is
at most its limit, the loop leaves through a break in its first iteration,
for every positive fuel, and the log of requests is the single offset 0;
the page of that response is arbitrary. -/
theorem single_page_one_request (api : Nat → Int → IncidentsResponse)
    (h : (api 1 0).Total ≤ (api 1 0).Limit) :
    ∃ t, (∀ fuel, runLoop api (fuel + 1) init = Flow.brk t) ∧ t.requests = [0] := by
  have h1 : runLoop api 1 init = loopBody api init := by
    rw [runLoop_succ_right]
    rfl
  have hlog := loopBody_requests api init
  have hidx : api (init.requests.length + 1) init.offset = api 1 0 := rfl
  rcases loopBody_cases api init with hb | hb | hb
  · rw [hb.2] at h1 hlog
    exact ⟨_, fun fuel => runLoop_brk_mono api 1 (fuel + 1) init _ h1 (by omega), hlog⟩
  · rw [hb.2.2] at h1 hlog
    exact ⟨_, fun fuel => runLoop_brk_mono api 1 (fuel + 1) init _ h1 (by omega), hlog⟩
  · rw [hidx] at hb
    omega

/-- Witness of C1: four incidents served with limit 4. -/
theorem single_page_one_request_witness :
    (consistentServer fourIncidents 4 1 0).Total ≤ (consistentServer fourIncidents 4 1 0).Limit ∧
    ∃ t, (∀ fuel, runLoop (consistentServer fourIncidents 4) (fuel + 1) init = Flow.brk t)
      ∧ t.requests = [0] :=
  ⟨by decide, single_page_one_request (consistentServer fourIncidents 4) (by decide)⟩

/-- C2, as the code has it: when the loop makes call N+1 (N at least 1) at
offset o, call 1 was made at offset 0, and with p the offset requested on
call N and r the response to call N: o is the limit reported by r when p is
0 (so for N = 1), and otherwise o is the offset reported by r plus the number
of incidents of r, as a 64-bit integer. -/
theorem offset_of_next_call (api : Nat → Int → IncidentsResponse) (N : Nat) (o : Int)
    (hN : 1 ≤ N) (h : offsetOfCall api (N + 1) = some o) :
    offsetOfCall api 1 = some 0 ∧
    ∃ p r, offsetOfCall api N = some p ∧ responseOfCall api N = some r ∧
      (N = 1 → p = 0 ∧ o = r.Limit) ∧
      o = (if p = 0 then r.Limit else wrap64 (r.Offset + (r.Incidents.length : Int))) := by
  obtain ⟨M, rfl⟩ : ∃ M, N = M + 1 := ⟨N - 1, by omega⟩
  refine ⟨rfl, ?_⟩
  obtain ⟨t, ht, hto⟩ : ∃ t, callState api (M + 1) = some t ∧ t.offset = o := by
    cases hc : callState api (M + 1) with
    | none => simp [offsetOfCall, hc] at h
    | some t => exact ⟨t, rfl, by simpa [offsetOfCall, hc] using h⟩
  obtain ⟨s, hs, hbody⟩ := callState_succ_inv api M t ht
  have hlen := callState_requests_length api M s hs
  refine ⟨s.offset, api (M + 1) s.offset, ?_, ?_, ?_, ?_⟩
  · simp [offsetOfCall, hs]
  · simp [responseOfCall, offsetOfCall, hs]
  · intro hM
    have hM0 : M = 0 := by omega
    subst hM0
    have hs0 : s = init := by
      simpa [callState, runLoop] using hs.symm
    subst hs0
    refine ⟨rfl, ?_⟩
    rcases loopBody_cases api init with hb | hb | hb
    · rw [hb.2] at hbody; cases hbody
    · rw [hb.2.2] at hbody; cases hbody
    · rw [hb.2.2] at hbody
      cases hbody
      exact hto.symm
  · rcases loopBody_cases api s with hb | hb | hb
    · rw [hb.2] at hbody; cases hbody
    · rw [hb.2.2] at hbody; cases hbody
    · rw [hb.2.2, hlen] at hbody
      cases hbody
      exact hto.symm

/-- Witness of C2: the third call of the server that never echoes the offset. -/
theorem offset_of_next_call_witness :
    offsetOfCall nonEchoServer (2 + 1) = some 1 ∧
    (offsetOfCall nonEchoServer 1 = some 0 ∧
    ∃ p r, offsetOfCall nonEchoServer 2 = some p ∧ responseOfCall nonEchoServer 2 = some r ∧
      (2 = 1 → p = 0 ∧ (1 : Int) = r.Limit) ∧
      (1 : Int) = (if p = 0 then r.Limit else wrap64 (r.Offset + (r.Incidents.length : Int)))) :=
  ⟨by decide, offset_of_next_call nonEchoServer 2 1 (by decide) (by decide)⟩

/-- Counterexample to C2 as stated: the server that reports offset 0 in
every response. Call 2 is made at offset 1 and its page holds 1 incident, yet
call 3 is made at offset 1 again, not at 1 + 1. -/
theorem offset_not_previous_plus_page :
    offsetOfCall nonEchoServer 2 = some 1 ∧
    (responseOfCall nonEchoServer 2).map (fun r => r.Incidents.length) = some 1 ∧
    offsetOfCall nonEchoServer 3 = some 1 ∧
    offsetOfCall nonEchoServer 3 ≠ some (1 + 1) := by
  decide

/-- C3, as the code has it: when the loop is about to make call n+1 in
state s, it stops after that call exactly when the response has an empty page
or reports a total that is at most its limit; and when it stops, it has made
n+1 requests and makes no other, whatever the fuel. The number of incidents
collected plays no part. -/
theorem loop_stops_iff (api : Nat → Int → IncidentsResponse) (n : Nat) (s : LoopState)
    (h : callState api n = some s) :
    (callState api (n + 1) = none ↔
      ((api (n + 1) s.offset).Incidents = [] ∨
        (api (n + 1) s.offset).Total ≤ (api (n + 1) s.offset).Limit)) ∧
    (callState api (n + 1) = none →
      ∃ t, t.requests.length = n + 1 ∧
        ∀ fuel, n + 1 ≤ fuel → runLoop api fuel init = Flow.brk t) := by
  obtain ⟨hrun, hlen⟩ := callState_succ api n s h
  have hcs : callState api (n + 1) =
      match loopBody api s with
      | Flow.next t => some t
      | Flow.brk _ => none := by
    simp only [callState, hrun]
  constructor
  · rcases loopBody_cases api s with hb | hb | hb
    · rw [hlen] at hb
      rw [hb.2] at hcs
      exact ⟨fun _ => Or.inl hb.1, fun _ => hcs⟩
    · rw [hlen] at hb
      rw [hb.2.2] at hcs
      exact ⟨fun _ => Or.inr hb.2.1, fun _ => hcs⟩
    · rw [hlen] at hb
      rw [hb.2.2] at hcs
      constructor
      · intro hnone
        rw [hnone] at hcs
        cases hcs
      · intro hor
        rcases hor with h0 | h0
        · exact absurd h0 hb.1
        · have := hb.2.1
          omega
  · intro hnone
    cases hb : loopBody api s with
    | next t =>
      rw [hb, hnone] at hcs
      cases hcs
    | brk t =>
      refine ⟨t, ?_, ?_⟩
      · have hlog := loopBody_requests api s
        rw [hb] at hlog
        simp only [Flow.state] at hlog
        rw [hlog]
        simp [hlen]
      · intro fuel hf
        rw [hb] at hrun
        exact runLoop_brk_mono api (n + 1) fuel init t hrun hf

/-- Witness of C3: four incidents served with limit 2; the loop is about to
make call 3 in the state reached after two calls. -/
theorem loop_stops_iff_witness :
    ∃ s, callState (consistentServer fourIncidents 2) 2 = some s ∧
    ((callState (consistentServer fourIncidents 2) (2 + 1) = none ↔
      ((consistentServer fourIncidents 2 (2 + 1) s.offset).Incidents = [] ∨
        (consistentServer fourIncidents 2 (2 + 1) s.offset).Total
          ≤ (consistentServer fourIncidents 2 (2 + 1) s.offset).Limit)) ∧
    (callState (consistentServer fourIncidents 2) (2 + 1) = none →
      ∃ t, t.requests.length = 2 + 1 ∧
        ∀ fuel, 2 + 1 ≤ fuel →
          runLoop (consistentServer fourIncidents 2) fuel init = Flow.brk t)) :=
  ⟨_, rfl, loop_stops_iff (consistentServer fourIncidents 2) 2 _ rfl⟩

/-- Counterexample to C3 as stated: four incidents served with limit 2.
After call 2 the map holds 4 incidents and the response reports total 4, yet
the loop goes on to call 3, at offset 4: the log of three iterations is
0, 2, 4. -/
theorem request_after_total_reached :
    (callState (consistentServer fourIncidents 2) 2).map
        (fun s => (heldCount s.groupedByServiceMap, s.respStruct.Total, s.offset))
      = some (4, 4, 4) ∧
    (runLoop (consistentServer fourIncidents 2) 3 init).state.requests = [0, 2, 4] := by
  decide

/-- C4: against a server that answers consistently over a fixed list of
incidents with a fixed positive limit (the list being short enough for its
length to be a Go int), the loop leaves through a break for every fuel above
the length of the list, and the number of incidents then held across all
groups equals the total reported by the last response, the length of the
list. -/
theorem consistent_server_collects_total (items : List Incident) (limit : Nat)
    (hpos : 0 < limit) (hlen : items.length < 2 ^ 63) :
    ∃ t, (∀ fuel, items.length + 1 ≤ fuel →
        runLoop (consistentServer items limit) fuel init = Flow.brk t) ∧
      (heldCount t.groupedByServiceMap : Int) = t.respStruct.Total ∧
      t.respStruct.Total = (items.length : Int) := by
  have hlenI : (items.length : Int) < 2 ^ 63 := by exact_mod_cast hlen
  have hpl := consistent_page_length items limit (init.requests.length + 1) 0
  have hoff0 : init.offset = ((0 : Nat) : Int) := rfl
  rw [← hoff0] at hpl
  cases hbody : loopBody (consistentServer items limit) init with
  | brk t =>
    obtain ⟨hr, hm⟩ := loopBody_brk_fields _ init t hbody
    have htot : t.respStruct.Total = (items.length : Int) := by
      rw [hr]
      rfl
    refine ⟨t, ?_, ?_, htot⟩
    · intro fuel hf
      exact runLoop_brk_mono _ 1 fuel init t ((runLoop_one _ init).trans hbody) (by omega)
    · rw [htot]
      rcases hm with hm | hm
      · have hz := hm.1
        rw [hz] at hpl
        simp only [List.length_nil] at hpl
        have h0 : heldCount t.groupedByServiceMap = 0 := by
          rw [hm.2]
          rfl
        rw [h0]
        have : items.length = 0 := by omega
        rw [this]
      · have hle := hm.1
        simp only [consistentServer] at hle
        have h1 : heldCount t.groupedByServiceMap = min limit (items.length - 0) := by
          rw [hm.2, heldCount_foldl_mergeIncident, hpl]
          simp [init, heldCount]
        rw [h1]
        have : min limit (items.length - 0) = items.length := by omega
        rw [this]
  | next t =>
    obtain ⟨hne, hmap, hofs⟩ := loopBody_next_fields _ init t hbody
    have hi0 : init.offset = 0 := rfl
    rw [if_pos hi0] at hofs
    have hlim : (consistentServer items limit (init.requests.length + 1) init.offset).Limit
        = (limit : Int) := rfl
    rw [hlim] at hofs
    have hbig : limit < items.length := by
      by_contra hcon
      rcases loopBody_cases (consistentServer items limit) init with hb | hb | hb
      · rw [hb.2] at hbody
        cases hbody
      · rw [hb.2.2] at hbody
        cases hbody
      · have := hb.2.1
        simp only [consistentServer] at this
        omega
    obtain ⟨u, hu1, hu2, hu3⟩ := consistent_tail items limit hpos hlenI hbig
      (items.length - limit) t limit hofs hpos (by omega) (by omega)
      (by
        rw [hmap, heldCount_foldl_mergeIncident, hpl]
        simp only [init, heldCount, List.map_nil, List.sum_nil]
        omega)
    refine ⟨u, ?_, ?_, hu3⟩
    · intro fuel hf
      obtain ⟨f, rfl⟩ : ∃ f, fuel = f + 1 := ⟨fuel - 1, by omega⟩
      rw [runLoop_of_next _ f init t hbody]
      exact hu1 f (by omega)
    · rw [hu3, hu2]

/-- Witness of C4: four incidents of two services served with limit 2. -/
theorem consistent_server_collects_total_witness :
    (0 < 2 ∧ fourIncidents.length < 2 ^ 63) ∧
    ∃ t, (∀ fuel, fourIncidents.length + 1 ≤ fuel →
        runLoop (consistentServer fourIncidents 2) fuel init = Flow.brk t) ∧
      (heldCount t.groupedByServiceMap : Int) = t.respStruct.Total ∧
      t.respStruct.Total = (fourIncidents.length : Int) :=
  ⟨⟨by decide, by decide⟩,
    consistent_server_collects_total fourIncidents 2 (by decide) (by decide)⟩

/-! ## The loop with the memory of slices -/

theorem memRunLoop_succ_right (growCap : Growth) (api : Nat → Int → IncidentsResponse)
    (n : Nat) (s : MemState) :
    memRunLoop growCap api (n + 1) s =
      match memRunLoop growCap api n s with
      | MemFlow.brk t => MemFlow.brk t
      | MemFlow.next t => memLoopBody growCap api t := by
  induction n generalizing s with
  | zero =>
    simp only [memRunLoop]
    cases memLoopBody growCap api s <;> rfl
  | succ k ih =>
    rw [memRunLoop]
    cases hb : memLoopBody growCap api s with
    | brk t => simp [memRunLoop, hb]
    | next t =>
      simp only []
      rw [ih t]
      conv_rhs => rw [memRunLoop, hb]

theorem memLoopBody_empty (growCap : Growth) (api : Nat → Int → IncidentsResponse)
    (s : MemState) (h : (api (s.requests.length + 1) s.offset).Incidents = []) :
    ∃ t, memLoopBody growCap api s = MemFlow.brk t ∧
      t.mem = s.mem ∧ t.groupedByServiceMap = s.groupedByServiceMap ∧
      t.requests = s.requests ++ [s.offset] := by
  refine ⟨{ s with
      respStruct :=
        { cells := [], len := 0
          Limit := (api (s.requests.length + 1) s.offset).Limit
          Offset := (api (s.requests.length + 1) s.offset).Offset
          Total := (api (s.requests.length + 1) s.offset).Total }
      requests := s.requests ++ [s.offset] }, ?_, rfl, rfl, rfl⟩
  unfold memLoopBody callApiMem
  simp only [h, List.length_nil, if_true]

theorem decodeCells_fields (growCap : Growth) (page : List Incident) :
    ∀ (m : Mem) (cells : List Cell),
      ((decodeCells growCap m cells page).2.take page.length).map (fun c => c.fields)
        = page.map Incident.scalars := by
  induction page with
  | nil => intro m cells; simp
  | cons i rest ih =>
    intro m cells
    simp only [decodeCells, List.length_cons, List.take_succ_cons, List.map_cons]
    rw [ih]
    rfl

theorem mapGet_cellShape (m : CellMap) (k : String) :
    mapGet (cellShape m) k = (cellGet m k).map (fun g => g.map (fun c => c.fields)) := by
  induction m with
  | nil => rfl
  | cons kv rest ih =>
    obtain ⟨k1, v1⟩ := kv
    by_cases h : k1 = k
    · simp [cellShape, mapGet, cellGet, h]
    · have ih2 := ih
      simp only [cellShape] at ih2
      simp [cellShape, mapGet, cellGet, h, ih2]

theorem cellShape_cellSet (m : CellMap) (k : String) (v : List Cell) :
    cellShape (cellSet m k v) = mapSet (cellShape m) k (v.map (fun c => c.fields)) := by
  induction m with
  | nil => rfl
  | cons kv rest ih =>
    obtain ⟨k1, v1⟩ := kv
    by_cases h : k1 = k
    · simp [cellShape, mapSet, cellSet, h]
    · have ih2 := ih
      simp only [cellShape] at ih2
      simp [cellShape, mapSet, cellSet, h, ih2]

theorem mapGet_valueShape (m : GroupMap) (k : String) :
    mapGet (valueShape m) k = (mapGet m k).map (fun g => g.map Incident.scalars) := by
  induction m with
  | nil => rfl
  | cons kv rest ih =>
    obtain ⟨k1, v1⟩ := kv
    by_cases h : k1 = k
    · simp [valueShape, mapGet, h]
    · have ih2 := ih
      simp only [valueShape] at ih2
      simp [valueShape, mapGet, h, ih2]

theorem valueShape_mapSet (m : GroupMap) (k : String) (v : List Incident) :
    valueShape (mapSet m k v) = mapSet (valueShape m) k (v.map Incident.scalars) := by
  induction m with
  | nil => rfl
  | cons kv rest ih =>
    obtain ⟨k1, v1⟩ := kv
    by_cases h : k1 = k
    · simp [valueShape, mapSet, h]
    · have ih2 := ih
      simp only [valueShape] at ih2
      simp [valueShape, mapSet, h, ih2]

theorem cellShape_mergeCell (m : CellMap) (c : Cell) :
    cellShape (mergeCell m c) = mergeIncident (cellShape m) c.fields := by
  unfold mergeCell mergeIncident
  simp only [mapGet_cellShape]
  cases hf : cellGet m c.fields.Service.Name with
  | none =>
    simp only [Option.map_none', Option.isSome_none, Option.getD_none, Bool.not_false, if_true,
      cellShape_cellSet, List.nil_append, List.map_cons, List.map_nil]
  | some arr =>
    simp [cellShape_cellSet]

theorem valueShape_mergeIncident (m : GroupMap) (i : Incident) :
    valueShape (mergeIncident m i) = mergeIncident (valueShape m) i.scalars := by
  have hname : i.scalars.Service.Name = i.Service.Name := rfl
  unfold mergeIncident
  simp only [mapGet_valueShape, hname]
  cases hf : mapGet m i.Service.Name with
  | none =>
    simp only [Option.map_none', Option.isSome_none, Option.getD_none, Bool.not_false, if_true,
      valueShape_mapSet, List.nil_append, List.map_cons, List.map_nil]
    rfl
  | some arr =>
    simp [valueShape_mapSet]

theorem shape_foldl (page : List Incident) :
    ∀ (cells : List Cell) (cm : CellMap) (vm : GroupMap),
      cells.map (fun c => c.fields) = page.map Incident.scalars →
      cellShape cm = valueShape vm →
      cellShape (cells.foldl mergeCell cm) = valueShape (page.foldl mergeIncident vm) := by
  induction page with
  | nil =>
    intro cells cm vm hc hm
    cases cells with
    | nil => exact hm
    | cons c cs => simp at hc
  | cons i rest ih =>
    intro cells cm vm hc hm
    cases cells with
    | nil => simp at hc
    | cons c cs =>
      simp only [List.map_cons, List.cons.injEq] at hc
      simp only [List.foldl_cons]
      apply ih cs _ _ hc.2
      rw [cellShape_mergeCell, valueShape_mergeIncident, hm, hc.1]

theorem memLoopBody_sim (growCap : Growth) (api : Nat → Int → IncidentsResponse)
    (ms : MemState) (s : LoopState) (h : Sim ms s) :
    SimFlow (memLoopBody growCap api ms) (loopBody api s) := by
  obtain ⟨ho, hc, hr, -, -, -, -, hm⟩ := h
  have hidx : api (ms.requests.length + 1) ms.offset = api (s.requests.length + 1) s.offset := by
    rw [hr, ho]
  rcases loopBody_cases api s with hb | hb | hb
  · rw [hb.2]
    have hz : (api (s.requests.length + 1) s.offset).Incidents.length = 0 := by
      rw [hb.1]; rfl
    unfold memLoopBody callApiMem
    simp only [hidx, hz, if_true]
    exact ⟨ho, hc, by rw [hr, ho], rfl, rfl, rfl, hz.symm, hm⟩
  · rw [hb.2.2]
    have hz : (api (s.requests.length + 1) s.offset).Incidents.length ≠ 0 := by
      simpa using hb.1
    unfold memLoopBody callApiMem
    simp only [hidx, hz, if_false, hb.2.1, if_true]
    refine ⟨ho, hc, by rw [hr, ho], rfl, rfl, rfl, rfl, ?_⟩
    exact shape_foldl _ _ _ _ (decodeCells_fields growCap _ _ _) hm
  · rw [hb.2.2]
    have hz : (api (s.requests.length + 1) s.offset).Incidents.length ≠ 0 := by
      simpa using hb.1
    have hlt : ¬ (api (s.requests.length + 1) s.offset).Total
        ≤ (api (s.requests.length + 1) s.offset).Limit := by
      have := hb.2.1
      omega
    unfold memLoopBody callApiMem
    simp only [hidx, hz, if_false, hlt]
    refine ⟨by rw [ho], by rw [hc], by rw [hr, ho], rfl, rfl, rfl, rfl, ?_⟩
    exact shape_foldl _ _ _ _ (decodeCells_fields growCap _ _ _) hm

/-- The loop in memory and the loop on values make the same requests, end the
same way, and hold the same groups up to the content of slice fields. -/
theorem memRunLoop_sim (growCap : Growth) (api : Nat → Int → IncidentsResponse)
    (fuel : Nat) (ms : MemState) (s : LoopState) (h : Sim ms s) :
    SimFlow (memRunLoop growCap api fuel ms) (runLoop api fuel s) := by
  induction fuel generalizing ms s with
  | zero => exact h
  | succ k ih =>
    have hb := memLoopBody_sim growCap api ms s h
    rw [memRunLoop, runLoop]
    cases hm : memLoopBody growCap api ms with
    | brk mt =>
      cases hv : loopBody api s with
      | brk t =>
        rw [hm, hv] at hb
        exact hb
      | next t =>
        rw [hm, hv] at hb
        exact hb.elim
    | next mt =>
      cases hv : loopBody api s with
      | brk t =>
        rw [hm, hv] at hb
        exact hb.elim
      | next t =>
        rw [hm, hv] at hb
        exact ih mt t hb

theorem sim_init : Sim memInit init :=
  ⟨rfl, rfl, rfl, rfl, rfl, rfl, rfl, rfl⟩

theorem simFlow_state (mf : MemFlow) (f : Flow) (h : SimFlow mf f) : Sim mf.state f.state := by
  cases mf <;> cases f <;> first | exact h | exact h.elim

/-- What the aliasing leaves intact, for every server, fuel and growth of
capacities: the group stored under a name holds, in arrival order, the
incidents of the pages answered so far that carry the name, equal to them up
to the content of their three slice fields; no other element, and no group
for a name that no incident carries. -/
theorem stored_groups_up_to_slices (growCap : Growth)
    (api : Nat → Int → IncidentsResponse) (fuel : Nat) (name : String) :
    (storedGroup (memRunLoop growCap api fuel memInit).state name).map
        (fun g => g.map Incident.scalars)
      = (groupOf (withService name
          (pagesFrom api 1 (memRunLoop growCap api fuel memInit).state.requests).flatten)).map
        (fun g => g.map Incident.scalars) := by
  obtain ⟨-, -, hreq, -, -, -, -, hshape⟩ :=
    simFlow_state _ _ (memRunLoop_sim growCap api fuel memInit init sim_init)
  have hmap := runLoop_map api fuel init rfl
  have hget := mapGet_foldl_mergeIncident
    (pagesFrom api 1 (runLoop api fuel init).state.requests).flatten [] []
    (fun _ => rfl) name
  rw [← hmap] at hget
  simp only [List.nil_append] at hget
  have h1 := mapGet_cellShape (memRunLoop growCap api fuel memInit).state.groupedByServiceMap name
  rw [hshape, mapGet_valueShape, hget, ← hreq] at h1
  have h2 := congrArg (fun o : Option (List Incident) => o.map (fun g => g.map Incident.scalars)) h1
  simp only [Option.map_map] at h2
  unfold storedGroup
  rw [Option.map_map]
  have hl : ((fun g : List Incident => g.map Incident.scalars)
      ∘ fun g : List Cell => g.map (Cell.read (memRunLoop growCap api fuel memInit).state.mem))
      = ((fun g : List Incident => g.map Incident.scalars)
      ∘ fun g : List Cell => g.map (fun c => c.fields)) := by
    funext g
    simp only [Function.comp, List.map_map]
    rfl
  have hr : ((fun g : List Incident => g.map Incident.scalars)
      ∘ fun g : List Incident => g.map Incident.scalars)
      = (fun g : List Incident => g.map Incident.scalars) := by
    funext g
    simp only [Function.comp, List.map_map]
    congr 1
  rw [hl, ← h2, hr]


/-- C5 at a failing input: a server answering consistently, one incident a
page, over incident 1 acknowledged by bob and incident 2 acknowledged by
dave, for every growth of capacities. The loop makes the requests 0, 1, 2 and
stops; the incidents of the pages answered are 1 with bob and 2 with dave;
the group stored under "db" holds 1 with dave and 2 with dave: decoding page
2 into the reused `respStruct` has overwritten the acknowledger of the stored
incident 1. -/
theorem stored_acknowledger_overwritten (growCap : Growth) :
    ∃ t, memRunLoop growCap bobDaveServer 3 memInit = MemFlow.brk t ∧
      t.requests = [0, 1, 2] ∧
      ackNames (withService "db" (pagesFrom bobDaveServer 1 t.requests).flatten)
        = [(1, ["bob"]), (2, ["dave"])] ∧
      (storedGroup t "db").map ackNames = some [(1, ["dave"]), (2, ["dave"])] := by
  have hsim := memRunLoop_sim growCap bobDaveServer 2 memInit init sim_init
  have hgrp : (storedGroup (memRunLoop growCap bobDaveServer 2 memInit).state "db").map ackNames
      = some [(1, ["dave"]), (2, ["dave"])] := rfl
  have hv : ∃ v, runLoop bobDaveServer 2 init = Flow.next v ∧ v.offset = 2 ∧ v.requests = [0, 1] :=
    ⟨_, rfl, by decide, by decide⟩
  obtain ⟨v, hvrun, hvoff, hvreq⟩ := hv
  rw [hvrun] at hsim
  cases h2 : memRunLoop growCap bobDaveServer 2 memInit with
  | brk u =>
    rw [h2] at hsim
    exact hsim.elim
  | next u =>
    rw [h2] at hsim hgrp
    obtain ⟨ho, -, hr, -⟩ := hsim
    rw [hvoff] at ho
    rw [hvreq] at hr
    simp only [MemFlow.state] at hgrp
    obtain ⟨t, ht, hmem, hmap, htreq⟩ := memLoopBody_empty growCap bobDaveServer u
      (by rw [hr, ho]; rfl)
    have hlog : t.requests = [0, 1, 2] := by
      rw [htreq, hr, ho]
      rfl
    refine ⟨t, ?_, hlog, ?_, ?_⟩
    · rw [memRunLoop_succ_right, h2]
      exact ht
    · rw [hlog]
      decide
    · unfold storedGroup at hgrp ⊢
      rw [hmem, hmap]
      exact hgrp

/-! ## The report formatter -/

/-- C6: for an incident with status "resolved", the resolution computed by
writeIncident is the text "API" when the resolver is absent (nil), and the
text "resolved by: " followed by r when the resolver is the string r; the
acknowledger list is arbitrary. -/
theorem resolution_resolved (f : Fmt) (incident : Incident)
    (hs : incident.Status = "resolved") :
    (incident.ResolvedByUser = Dyn.nil →
        resolution f incident = Except.ok (Dyn.string "API")) ∧
    (∀ r : String, incident.ResolvedByUser = Dyn.string r →
        resolution f incident = Except.ok (Dyn.string ("resolved by: " ++ r))) := by
  constructor
  · intro hr
    simp [resolution, hs, hr, Dyn.isNil]
  · intro r hr
    simp [resolution, hs, hr, Dyn.isNil, sprintS]

/-- Witness of C6: a resolved incident whose resolver is "alice", with an
acknowledger list that is not empty. -/
theorem resolution_resolved_witness :
    resolution exFmt { ackIncident with Status := "resolved", ResolvedByUser := Dyn.string "alice" }
      = Except.ok (Dyn.string ("resolved by: " ++ "alice")) :=
  (resolution_resolved exFmt
    { ackIncident with Status := "resolved", ResolvedByUser := Dyn.string "alice" } rfl).2
    "alice" rfl

/-- C7: for an incident with status "acknowledged" whose acknowledger list
is a0 :: rest, the resolution computed by writeIncident is the name of a0,
then " - ", then the timestamp of a0 as the library prints it; rest and the
resolver are arbitrary. -/
theorem resolution_acknowledged (f : Fmt) (incident : Incident)
    (a0 : Acknowledger) (rest : List Acknowledger)
    (hs : incident.Status = "acknowledged")
    (ha : incident.Acknowledgers = a0 :: rest) :
    resolution f incident
      = Except.ok (Dyn.string (a0.Object.Name ++ " - " ++ f.timeString a0.At)) := by
  simp [resolution, hs, ha]

/-- Witness of C7: two acknowledgers and a resolver that is set. -/
theorem resolution_acknowledged_witness :
    resolution exFmt ackIncident
      = Except.ok (Dyn.string ("bob" ++ " - " ++ exFmt.timeString { sec := 7 })) :=
  resolution_acknowledged exFmt ackIncident
    { At := { sec := 7 }, Object := { Name := "bob" } }
    [{ At := { sec := 9 }, Object := { Name := "dave" } }] rfl rfl

/-- C8: for an incident with status "triggered", the resolution computed by
writeIncident is the text "open", whatever the resolver and the acknowledger
list hold. -/
theorem resolution_triggered (f : Fmt) (incident : Incident)
    (hs : incident.Status = "triggered") :
    resolution f incident = Except.ok (Dyn.string "open") := by
  simp [resolution, hs]

/-- Witness of C8: a triggered incident with a resolver and acknowledgers. -/
theorem resolution_triggered_witness :
    resolution exFmt { ackIncident with Status := "triggered" }
      = Except.ok (Dyn.string "open") :=
  resolution_triggered exFmt { ackIncident with Status := "triggered" } rfl

/-- C9: writeIncident fails with an index out of range exactly when the
status is "acknowledged" and the acknowledger list is empty, and it produces
an output line exactly when that is not the case. -/
theorem writeIncident_fails_iff (f : Fmt) (key : String) (incident : Incident) :
    (writeIncident f key incident = Except.error Failure.indexOutOfRange ↔
      (incident.Status = "acknowledged" ∧ incident.Acknowledgers = [])) ∧
    ((∃ line, writeIncident f key incident = Except.ok line) ↔
      ¬ (incident.Status = "acknowledged" ∧ incident.Acknowledgers = [])) := by
  unfold writeIncident resolution
  by_cases h1 : incident.Status = "resolved"
  · by_cases hn : incident.ResolvedByUser.isNil <;> simp [h1, hn]
  · by_cases h2 : incident.Status = "acknowledged"
    · cases ha : incident.Acknowledgers <;> simp [h2]
    · by_cases h3 : incident.Status = "triggered" <;> simp [h1, h2, h3]

/-- C10: for an incident whose status is none of "resolved", "acknowledged",
"triggered", the resolution computed by writeIncident is the raw resolver
value of the incident, unchanged. -/
theorem resolution_other_status (f : Fmt) (incident : Incident)
    (h1 : incident.Status ≠ "resolved")
    (h2 : incident.Status ≠ "acknowledged")
    (h3 : incident.Status ≠ "triggered") :
    resolution f incident = Except.ok incident.ResolvedByUser := by
  simp [resolution, h1, h2, h3]

/-- Witness of C10: the status "Resolved" (capitalised) with the resolver
absent leaves the nil value. -/
theorem resolution_other_status_witness :
    resolution exFmt { Status := "Resolved" } = Except.ok Dyn.nil :=
  resolution_other_status exFmt { Status := "Resolved" }
    (by decide) (by decide) (by decide)

end PdReporter
